import Mathlib

/-!
Verification of the `mod_pdf` utilities (`mergepdf.py`, `resizepdf.py`).

The Python sources are shallowly embedded as Lean functions:

* `splitGo` models `re.split(r'(\d+)', s)` (capturing split on maximal digit
  runs, using the ASCII digit class on the characters of the string);
* `natural_sort_key` models `mergepdf.natural_sort_key`: each digit run is
  parsed as a number, each remaining chunk is lowercased and kept as text
  (characters are represented by their code points);
* `keyCmp` models Python's comparison of two key lists: element-wise, first
  non-equal element decides, a missing trailing element is smallest, and a
  numeric token compared against a text token raises `TypeError`, modelled
  as `none`;
* `cbz_to_pdf` models the entry filtering / ordering of `mergepdf.cbz_to_pdf`
  (one output page per kept image entry, represented by its entry name);
* `mergeStep` / `merge_pdfs_high_quality` model the merge loop of
  `mergepdf.merge_pdfs_high_quality`, with each input document abstracted by
  how its iteration goes (opens and inserts fine / `fitz.open` raises /
  `insert_pdf` raises) and the state tracking the produced pages together
  with the input handles that were opened and never closed;
* `resizePage` / `resize_pdf` model the per-page geometry of
  `resizepdf.resize_pdf` over exact rationals;
* `get_output_directory` models `get_output_directory` (identical in both
  scripts), with the filesystem condition (`os.path.exists`) and the outcome
  of `Path.mkdir` passed in as booleans.
-/

namespace ModPdf

/-- One token of a natural sort key: a parsed digit run, or a lowercased text
run whose characters are represented by their code points.  Mirrors the
elements of the list built by `natural_sort_key` in `mergepdf.py`. -/
inductive NToken where
  | num : Nat → NToken
  | str : List Nat → NToken
deriving DecidableEq, Repr

/-- Models `re.split(r'(\d+)', s)` on the character list of `s`: the result
alternates (possibly empty) digit-free chunks with maximal nonempty digit
runs, starting and ending with a digit-free chunk. -/
def splitGo : List Char → List (List Char)
  | [] => [[]]
  | c :: cs =>
    if c.isDigit then
      match splitGo cs with
      | [] :: d :: rest => [] :: (c :: d) :: rest
      | r => [] :: [c] :: r
    else
      match splitGo cs with
      | t :: rest => (c :: t) :: rest
      | [] => [[c]]

/-- Models Python's `int(text)` on a digit run. -/
def digitsToNat (p : List Char) : Nat :=
  p.foldl (fun n c => n * 10 + (c.toNat - 48)) 0

/-- Models the element conversion in `natural_sort_key`:
`int(text) if text.isdigit() else text.lower()`. -/
def tokenize (p : List Char) : NToken :=
  if p ≠ [] ∧ p.all Char.isDigit then NToken.num (digitsToNat p)
  else NToken.str (p.map (fun c => (Char.toLower c).toNat))

/-- Models `mergepdf.natural_sort_key`. -/
def natural_sort_key (s : String) : List NToken :=
  (splitGo s.data).map tokenize

/-- Lexicographic comparison of code-point lists; models Python's `<`/`==`
on strings. -/
def lexCmpNat : List Nat → List Nat → Ordering
  | [], [] => Ordering.eq
  | [], _ :: _ => Ordering.lt
  | _ :: _, [] => Ordering.gt
  | a :: as, b :: bs =>
    match compare a b with
    | Ordering.eq => lexCmpNat as bs
    | o => o

/-- Comparison of two key tokens; `none` models the `TypeError` Python
raises when `<` is applied to an `int` and a `str`. -/
def tokenCmp : NToken → NToken → Option Ordering
  | NToken.num a, NToken.num b => some (compare a b)
  | NToken.str a, NToken.str b => some (lexCmpNat a b)
  | _, _ => none

/-- Models Python's list comparison on two sort keys: element-wise, the
first non-equal pair decides, a list that runs out first is smaller, and a
mixed `int`/`str` pair at the deciding position raises (`none`). -/
def keyCmp : List NToken → List NToken → Option Ordering
  | [], [] => some Ordering.eq
  | [], _ :: _ => some Ordering.lt
  | _ :: _, [] => some Ordering.gt
  | x :: xs, y :: ys =>
    match tokenCmp x y with
    | some Ordering.eq => keyCmp xs ys
    | r => r

end ModPdf

namespace ModPdf

theorem splitGo_ne_nil (cs : List Char) : splitGo cs ≠ [] := by
  cases cs with
  | nil => simp [splitGo]
  | cons c cs =>
    simp only [splitGo]
    rcases splitGo cs with _ | ⟨_ | ⟨a, t⟩, _ | ⟨d, rest⟩⟩ <;>
      by_cases hc : c.isDigit <;> simp [hc]

/-- The splitting step is loss-free: concatenating the chunks produced by
`splitGo` reconstructs the original character list. -/
theorem splitGo_join (cs : List Char) : (splitGo cs).flatten = cs := by
  induction cs with
  | nil => simp [splitGo]
  | cons c cs ih =>
    simp only [splitGo]
    rcases hq : splitGo cs with _ | ⟨_ | ⟨a, t⟩, _ | ⟨d, rest⟩⟩ <;>
      rw [hq] at ih <;> by_cases hc : c.isDigit <;>
      simp_all

/-- The shape invariant of `splitGo`'s output: digit-free chunks (possibly
empty) at even positions, nonempty all-digit chunks at odd positions. -/
inductive AltChunks : List (List Char) → Prop where
  | single (t : List Char) (ht : ∀ c ∈ t, c.isDigit = false) : AltChunks [t]
  | more (t d : List Char) (rest : List (List Char))
      (ht : ∀ c ∈ t, c.isDigit = false) (hd : d ≠ [])
      (hd2 : ∀ c ∈ d, c.isDigit = true)
      (hrest : AltChunks rest) : AltChunks (t :: d :: rest)

theorem splitGo_alt (cs : List Char) : AltChunks (splitGo cs) := by
  induction cs with
  | nil => exact AltChunks.single [] (by simp)
  | cons c cs ih =>
    simp only [splitGo]
    generalize hq : splitGo cs = q at ih ⊢
    by_cases hc : c.isDigit
    · simp only [hc, if_true]
      cases ih with
      | single t ht =>
        cases t with
        | nil =>
          exact AltChunks.more [] [c] [[]] (by simp) (by simp)
            (by simpa using hc) (AltChunks.single [] (by simp))
        | cons a t =>
          exact AltChunks.more [] [c] [a :: t] (by simp) (by simp)
            (by simpa using hc) (AltChunks.single (a :: t) ht)
      | more t d rest ht hd hd2 hrest =>
        cases t with
        | nil =>
          refine AltChunks.more [] (c :: d) rest (by simp) (by simp) ?_ hrest
          intro x hx
          rcases List.mem_cons.mp hx with rfl | hx
          · simpa using hc
          · exact hd2 x hx
        | cons a t =>
          exact AltChunks.more [] [c] ((a :: t) :: d :: rest) (by simp) (by simp)
            (by simpa using hc)
            (AltChunks.more (a :: t) d rest ht hd hd2 hrest)
    · simp only [hc, if_false]
      have hc' : c.isDigit = false := by simpa using hc
      cases ih with
      | single t ht =>
        refine AltChunks.single (c :: t) ?_
        intro x hx
        rcases List.mem_cons.mp hx with rfl | hx
        · exact hc'
        · exact ht x hx
      | more t d rest ht hd hd2 hrest =>
        refine AltChunks.more (c :: t) d rest ?_ hd hd2 hrest
        intro x hx
        rcases List.mem_cons.mp hx with rfl | hx
        · exact hc'
        · exact ht x hx

/-- Alternation at token level: a key is a text token, then repeatedly a
numeric token followed by a text token. -/
inductive AltKey : List NToken → Prop where
  | single (u : List Nat) : AltKey [NToken.str u]
  | more (u : List Nat) (n : Nat) (rest : List NToken)
      (hrest : AltKey rest) : AltKey (NToken.str u :: NToken.num n :: rest)

theorem tokenize_str (t : List Char) (ht : ∀ c ∈ t, c.isDigit = false) :
    tokenize t = NToken.str (t.map (fun c => (Char.toLower c).toNat)) := by
  cases t with
  | nil => rfl
  | cons a t =>
    have : (a :: t).all Char.isDigit = false := by
      rw [List.all_eq_false]
      exact ⟨a, List.mem_cons_self a t, by simp [ht a (List.mem_cons_self a t)]⟩
    simp [tokenize, this]

theorem tokenize_num (d : List Char) (hd : d ≠ []) (hd2 : ∀ c ∈ d, c.isDigit = true) :
    tokenize d = NToken.num (digitsToNat d) := by
  have : d.all Char.isDigit = true := by
    simp only [List.all_eq_true]
    exact hd2
  simp [tokenize, hd, this]

theorem altKey_map_tokenize (l : List (List Char)) (h : AltChunks l) :
    AltKey (l.map tokenize) := by
  induction h with
  | single t ht =>
    rw [List.map_cons, List.map_nil, tokenize_str t ht]
    exact AltKey.single _
  | more t d rest ht hd hd2 hrest ih =>
    rw [List.map_cons, List.map_cons, tokenize_str t ht, tokenize_num d hd hd2]
    exact AltKey.more _ _ _ ih

theorem altKey_natural_sort_key (s : String) : AltKey (natural_sort_key s) :=
  altKey_map_tokenize _ (splitGo_alt s.data)

/-- Comparing two alternating keys never reaches a mixed numeric/text pair:
the comparison always returns a result. -/
theorem keyCmp_isSome_of_alt (a b : List NToken) (ha : AltKey a) (hb : AltKey b) :
    (keyCmp a b).isSome = true := by
  induction ha generalizing b with
  | single u =>
    cases hb with
    | single v =>
      simp only [keyCmp, tokenCmp]
      rcases lexCmpNat u v with _ | _ | _ <;> simp
    | more v m rest hrest =>
      simp only [keyCmp, tokenCmp]
      rcases lexCmpNat u v with _ | _ | _ <;> simp [keyCmp]
  | more u n rest hrest ih =>
    cases hb with
    | single v =>
      simp only [keyCmp, tokenCmp]
      rcases lexCmpNat u v with _ | _ | _ <;> simp [keyCmp]
    | more v m rest' hrest' =>
      simp only [keyCmp, tokenCmp]
      rcases lexCmpNat u v with _ | _ | _ <;>
        rcases hcmp : compare n m with _ | _ | _ <;>
        simp [keyCmp, tokenCmp, hcmp, ih _ hrest']

theorem lexCmpNat_eq_iff : ∀ a b : List Nat, lexCmpNat a b = Ordering.eq ↔ a = b
  | [], [] => by simp [lexCmpNat]
  | [], _ :: _ => by simp [lexCmpNat]
  | _ :: _, [] => by simp [lexCmpNat]
  | a :: as, b :: bs => by
    rcases hcmp : compare a b with _ | _ | _
    · have hab : a ≠ b := Nat.ne_of_lt (Nat.compare_eq_lt.mp hcmp)
      simp [lexCmpNat, hcmp, hab]
    · have hab : a = b := Nat.compare_eq_eq.mp hcmp
      subst hab
      simp [lexCmpNat, hcmp, lexCmpNat_eq_iff as bs]
    · have hab : a ≠ b := Nat.ne_of_gt (Nat.compare_eq_gt.mp hcmp)
      simp [lexCmpNat, hcmp, hab]

theorem lexCmpNat_swap : ∀ a b : List Nat, lexCmpNat b a = (lexCmpNat a b).swap
  | [], [] => rfl
  | [], _ :: _ => rfl
  | _ :: _, [] => rfl
  | a :: as, b :: bs => by
    have hs : compare b a = (compare a b).swap := (Nat.compare_swap a b).symm
    rcases hcmp : compare a b with _ | _ | _ <;>
      rw [hcmp] at hs <;>
      simp [lexCmpNat, hcmp, hs, lexCmpNat_swap as bs, Ordering.swap]

theorem lexCmpNat_lt_trans :
    ∀ a b c : List Nat, lexCmpNat a b = Ordering.lt → lexCmpNat b c = Ordering.lt →
      lexCmpNat a c = Ordering.lt
  | [], [], _, h1, _ => by simp [lexCmpNat] at h1
  | [], _ :: _, [], _, h2 => by simp [lexCmpNat] at h2
  | [], _ :: _, _ :: _, _, _ => by simp [lexCmpNat]
  | _ :: _, [], _, h1, _ => by simp [lexCmpNat] at h1
  | _ :: _, _ :: _, [], _, h2 => by simp [lexCmpNat] at h2
  | a :: as, b :: bs, c :: cs, h1, h2 => by
    simp only [lexCmpNat] at h1 h2 ⊢
    rcases hab : compare a b with _ | _ | _ <;> rw [hab] at h1
    · rcases hbc : compare b c with _ | _ | _ <;> rw [hbc] at h2
      · have hac : compare a c = Ordering.lt :=
          Nat.compare_eq_lt.mpr
            (Nat.lt_trans (Nat.compare_eq_lt.mp hab) (Nat.compare_eq_lt.mp hbc))
        rw [hac]
      · have hb : b = c := Nat.compare_eq_eq.mp hbc
        subst hb
        rw [hab]
      · simp at h2
    · have hb : a = b := Nat.compare_eq_eq.mp hab
      subst hb
      simp only [] at h1
      rcases hbc : compare a c with _ | _ | _ <;> rw [hbc] at h2
      · exact lexCmpNat_lt_trans as bs cs h1 h2
      · simp at h2
    · simp at h1

theorem tokenCmp_eq_iff (x y : NToken) : tokenCmp x y = some Ordering.eq ↔ x = y := by
  cases x with
  | num a =>
    cases y with
    | num b => simp [tokenCmp, Nat.compare_eq_eq]
    | str b => simp [tokenCmp]
  | str a =>
    cases y with
    | num b => simp [tokenCmp]
    | str b => simp [tokenCmp, lexCmpNat_eq_iff]

theorem tokenCmp_swap (x y : NToken) : tokenCmp y x = (tokenCmp x y).map Ordering.swap := by
  cases x with
  | num a =>
    cases y with
    | num b => simp [tokenCmp, (Nat.compare_swap a b).symm]
    | str b => simp [tokenCmp]
  | str a =>
    cases y with
    | num b => simp [tokenCmp]
    | str b => simp [tokenCmp, lexCmpNat_swap a b]

theorem tokenCmp_lt_trans (x y z : NToken)
    (h1 : tokenCmp x y = some Ordering.lt) (h2 : tokenCmp y z = some Ordering.lt) :
    tokenCmp x z = some Ordering.lt := by
  cases x with
  | num a =>
    cases y with
    | num b =>
      cases z with
      | num c =>
        simp only [tokenCmp, Option.some.injEq] at h1 h2 ⊢
        exact Nat.compare_eq_lt.mpr
          (Nat.lt_trans (Nat.compare_eq_lt.mp h1) (Nat.compare_eq_lt.mp h2))
      | str c => simp [tokenCmp] at h2
    | str b => simp [tokenCmp] at h1
  | str a =>
    cases y with
    | num b => simp [tokenCmp] at h1
    | str b =>
      cases z with
      | num c => simp [tokenCmp] at h2
      | str c =>
        simp only [tokenCmp, Option.some.injEq] at h1 h2 ⊢
        exact lexCmpNat_lt_trans a b c h1 h2

theorem tokenCmp_refl (x : NToken) : tokenCmp x x = some Ordering.eq :=
  (tokenCmp_eq_iff x x).mpr rfl

theorem keyCmp_eq_iff : ∀ a b : List NToken, keyCmp a b = some Ordering.eq ↔ a = b
  | [], [] => by simp [keyCmp]
  | [], _ :: _ => by simp [keyCmp]
  | _ :: _, [] => by simp [keyCmp]
  | x :: xs, y :: ys => by
    simp only [keyCmp]
    rcases htc : tokenCmp x y with _ | _ | _ | _
    · have hxy : x ≠ y := by
        intro h
        rw [h, tokenCmp_refl] at htc
        simp at htc
      simp [hxy]
    · have hxy : x ≠ y := by
        intro h
        rw [h, tokenCmp_refl] at htc
        simp at htc
      simp [hxy]
    · have hxy : x = y := (tokenCmp_eq_iff x y).mp htc
      subst hxy
      simp [keyCmp_eq_iff xs ys]
    · have hxy : x ≠ y := by
        intro h
        rw [h, tokenCmp_refl] at htc
        simp at htc
      simp [hxy]

theorem keyCmp_swap : ∀ a b : List NToken, keyCmp b a = (keyCmp a b).map Ordering.swap
  | [], [] => rfl
  | [], _ :: _ => rfl
  | _ :: _, [] => rfl
  | x :: xs, y :: ys => by
    simp only [keyCmp]
    rw [tokenCmp_swap x y]
    rcases htc : tokenCmp x y with _ | _ | _ | _ <;>
      simp [Ordering.swap, keyCmp_swap xs ys]

theorem keyCmp_lt_trans :
    ∀ a b c : List NToken, keyCmp a b = some Ordering.lt → keyCmp b c = some Ordering.lt →
      keyCmp a c = some Ordering.lt
  | [], [], _, h1, _ => by simp [keyCmp] at h1
  | [], _ :: _, [], _, h2 => by simp [keyCmp] at h2
  | [], _ :: _, _ :: _, _, _ => by simp [keyCmp]
  | _ :: _, [], _, h1, _ => by simp [keyCmp] at h1
  | _ :: _, _ :: _, [], _, h2 => by simp [keyCmp] at h2
  | x :: xs, y :: ys, z :: zs, h1, h2 => by
    simp only [keyCmp] at h1 h2 ⊢
    rcases hxy : tokenCmp x y with _ | _ | _ | _ <;> rw [hxy] at h1
    · simp at h1
    · rcases hyz : tokenCmp y z with _ | _ | _ | _ <;> rw [hyz] at h2
      · simp at h2
      · rw [tokenCmp_lt_trans x y z hxy hyz]
      · have hy : y = z := (tokenCmp_eq_iff y z).mp hyz
        subst hy
        rw [hxy]
      · simp at h2
    · have hy : x = y := (tokenCmp_eq_iff x y).mp hxy
      subst hy
      rcases hyz : tokenCmp x z with _ | _ | _ | _ <;> rw [hyz] at h2
      · simp at h2
      · exact keyCmp_lt_trans xs ys zs h1 h2
      · simp at h2
    · simp at h1

/-- The comparison backing `list.sort(key=natural_sort_key)` in the Python
source: `a` may be placed no later than `b` iff `b`'s key is not strictly
smaller than `a`'s.  A stable sort with this relation is what Python's
`sort` computes. -/
def natLe (a b : String) : Prop :=
  ¬ keyCmp (natural_sort_key a) (natural_sort_key b) = some Ordering.gt

instance : DecidableRel natLe := fun _ _ => instDecidableNot

theorem keyCmp_some_of_strings (a b : String) :
    ∃ o, keyCmp (natural_sort_key a) (natural_sort_key b) = some o := by
  have h := keyCmp_isSome_of_alt (natural_sort_key a) (natural_sort_key b)
    (altKey_natural_sort_key a) (altKey_natural_sort_key b)
  exact Option.isSome_iff_exists.mp h

instance : IsTotal String natLe := by
  constructor
  intro a b
  by_cases h : keyCmp (natural_sort_key a) (natural_sort_key b) = some Ordering.gt
  · right
    rw [natLe, keyCmp_swap, h]
    simp [Ordering.swap]
  · left
    exact h

instance : IsTrans String natLe := by
  constructor
  intro a b c hab hbc
  rcases keyCmp_some_of_strings a b with ⟨o1, h1⟩
  rcases keyCmp_some_of_strings b c with ⟨o2, h2⟩
  rcases o1 with _ | _ | _
  · rcases o2 with _ | _ | _
    · rw [natLe, keyCmp_lt_trans _ _ _ h1 h2]
      simp
    · have := (keyCmp_eq_iff _ _).mp h2
      rw [natLe, ← this, h1]
      simp
    · exact absurd h2 hbc
  · have := (keyCmp_eq_iff _ _).mp h1
    rw [natLe, this]
    exact hbc
  · exact absurd h1 hab

/-- Suffix test on characters; models Python's `str.endswith`. -/
def endsWithL (l suf : List Char) : Bool :=
  l.drop (l.length - suf.length) == suf

/-- Models the filter in `cbz_to_pdf`:
`f.lower().endswith(('.jpg', '.jpeg', '.png'))`. -/
def isImageEntry (f : String) : Bool :=
  let l := f.data.map Char.toLower
  endsWithL l ".jpg".data || endsWithL l ".jpeg".data || endsWithL l ".png".data

/-- Models `mergepdf.cbz_to_pdf` at the level of archive entry names: keep
the image entries, return `None` when there are none, otherwise natural-sort
them; the resulting PDF has one page per kept entry, in that order, each
page represented here by the entry it was made from. -/
def cbz_to_pdf (names : List String) : Option (List String) :=
  let image_files := names.filter isImageEntry
  if image_files = [] then none
  else some (image_files.insertionSort natLe)

theorem altKey_getElem (k : List NToken) (hk : AltKey k) :
    ∀ i tok, k[i]? = some tok →
      (i % 2 = 0 → ∃ u, tok = NToken.str u) ∧ (i % 2 = 1 → ∃ n, tok = NToken.num n) := by
  induction hk with
  | single u =>
    intro i tok h
    match i with
    | 0 =>
      simp only [List.getElem?_cons_zero, Option.some.injEq] at h
      exact ⟨fun _ => ⟨u, h.symm⟩, fun habs => absurd habs (by decide)⟩
    | m + 1 => simp at h
  | more u n rest hrest ih =>
    intro i tok h
    match i with
    | 0 =>
      simp only [List.getElem?_cons_zero, Option.some.injEq] at h
      exact ⟨fun _ => ⟨u, h.symm⟩, fun habs => absurd habs (by decide)⟩
    | 1 =>
      simp only [List.getElem?_cons_succ, List.getElem?_cons_zero, Option.some.injEq] at h
      exact ⟨fun habs => absurd habs (by decide), fun _ => ⟨n, h.symm⟩⟩
    | m + 2 =>
      have h' : rest[m]? = some tok := by simpa using h
      have hm := ih m tok h'
      constructor
      · intro he
        exact hm.1 (by omega)
      · intro ho
        exact hm.2 (by omega)

/-- C1: in the key comparison order produced by `natural_sort_key`,
`"img10.png"` comes strictly after `"img2a.png"` (the numeric tokens 10 and
2 decide), so the claimed chain `img2 < img10 < img2a` fails at its second
step. -/
theorem C1_counterexample :
    keyCmp (natural_sort_key "img10.png") (natural_sort_key "img2a.png") = some Ordering.gt ∧
    ¬ keyCmp (natural_sort_key "img10.png") (natural_sort_key "img2a.png") = some Ordering.lt := by
  decide

/-- C1 (amended): the natural sort key order places `"img2.png"` before
`"img2a.png"` and both before `"img10.png"`. -/
theorem C1_natural_order :
    keyCmp (natural_sort_key "img2.png") (natural_sort_key "img10.png") = some Ordering.lt ∧
    keyCmp (natural_sort_key "img2.png") (natural_sort_key "img2a.png") = some Ordering.lt ∧
    keyCmp (natural_sort_key "img2a.png") (natural_sort_key "img10.png") = some Ordering.lt := by
  decide

/-- C9: the splitting step of `natural_sort_key` is loss-free: the chunks
produced by `splitGo` concatenate back to the original string, and the key
has exactly one token per chunk. -/
theorem C9_split_lossfree (s : String) :
    (splitGo s.data).flatten = s.data ∧
    (natural_sort_key s).length = (splitGo s.data).length :=
  ⟨splitGo_join s.data, by simp [natural_sort_key]⟩

/-- C10: in every natural sort key, tokens at even positions are text tokens
and tokens at odd positions are numeric tokens, so comparing two keys
element-wise never reaches a mixed numeric/text pair: the comparison always
returns a result. -/
theorem C10_no_mixed_comparison (s t : String) :
    (∀ i tok, (natural_sort_key s)[i]? = some tok →
      (i % 2 = 0 → ∃ u, tok = NToken.str u) ∧ (i % 2 = 1 → ∃ n, tok = NToken.num n)) ∧
    (keyCmp (natural_sort_key s) (natural_sort_key t)).isSome = true :=
  ⟨altKey_getElem _ (altKey_natural_sort_key s),
   keyCmp_isSome_of_alt _ _ (altKey_natural_sort_key s) (altKey_natural_sort_key t)⟩

/-- Witness for C10 at `s = "a1"`, `t = "b"`, position 0. -/
theorem C10_witness :
    ((0 % 2 = 0 → ∃ u, NToken.str [97] = NToken.str u) ∧
     (0 % 2 = 1 → ∃ n, NToken.str [97] = NToken.num n)) ∧
    (keyCmp (natural_sort_key "a1") (natural_sort_key "b")).isSome = true :=
  ⟨(C10_no_mixed_comparison "a1" "b").1 0 (NToken.str [97]) (by decide),
   (C10_no_mixed_comparison "a1" "b").2⟩

/-- C7: whenever the archive converter produces a PDF, its pages are exactly
the image entries of the archive (`.jpg`/`.jpeg`/`.png`, case-insensitive),
one page per image entry, arranged in natural-sort order. -/
theorem C7_archive_pages (entries pages : List String)
    (h : cbz_to_pdf entries = some pages) :
    pages.Perm (entries.filter isImageEntry) ∧
    List.Sorted natLe pages ∧
    ∀ p ∈ pages, isImageEntry p = true := by
  rw [cbz_to_pdf] at h
  by_cases hemp : entries.filter isImageEntry = []
  · simp [hemp] at h
  · simp only [hemp, if_false] at h
    have hp : pages = (entries.filter isImageEntry).insertionSort natLe :=
      (Option.some.inj h).symm
    subst hp
    refine ⟨List.perm_insertionSort natLe _, List.sorted_insertionSort natLe _, ?_⟩
    intro p hp
    have : p ∈ entries.filter isImageEntry :=
      (List.perm_insertionSort natLe _).subset hp
    exact (List.mem_filter.mp this).2

/-- Witness for C7: an archive with entries `b.png`, `a.png`, `readme.txt`
yields a two-page PDF `a.png`, `b.png`; the text entry is excluded. -/
theorem C7_witness :
    cbz_to_pdf ["b.png", "a.png", "readme.txt"] = some ["a.png", "b.png"] ∧
    (["a.png", "b.png"].Perm (["b.png", "a.png", "readme.txt"].filter isImageEntry) ∧
     List.Sorted natLe ["a.png", "b.png"] ∧
     ∀ p ∈ ["a.png", "b.png"], isImageEntry p = true) :=
  ⟨by decide, C7_archive_pages ["b.png", "a.png", "readme.txt"] ["a.png", "b.png"] (by decide)⟩

/-- Abstraction of one input to the loop of `merge_pdfs_high_quality`:
the document opens and all its pages are inserted, or `fitz.open` raises,
or `fitz.open` succeeds and `insert_pdf` raises.  The carried list is the
document's page list. -/
inductive MergeInput (α : Type) where
  | ok : List α → MergeInput α
  | openFail : MergeInput α
  | insertFail : List α → MergeInput α

/-- State carried across merge-loop iterations: pages appended to the output
document so far, and the number of input handles opened but never closed. -/
structure MergeState (α : Type) where
  out : List α
  openHandles : Nat

/-- One iteration of the loop body of `merge_pdfs_high_quality`
(`fitz.open`; `output_doc.insert_pdf`; `pdf_doc.close()` inside `try`, the
`except` arm only prints a warning).  When `insert_pdf` raises, the handle
created by `fitz.open` in that iteration is never closed. -/
def mergeStep {α : Type} (s : MergeState α) (d : MergeInput α) : MergeState α :=
  match d with
  | MergeInput.ok pages => { out := s.out ++ pages, openHandles := s.openHandles }
  | MergeInput.openFail => s
  | MergeInput.insertFail _ => { out := s.out, openHandles := s.openHandles + 1 }

/-- Models `merge_pdfs_high_quality`: starts from an empty output document
with no open input handle and runs the loop body over every input in the
caller-supplied order. -/
def merge_pdfs_high_quality {α : Type} (docs : List (MergeInput α)) : MergeState α :=
  docs.foldl mergeStep { out := [], openHandles := 0 }

/-- Pages an input contributes to the output: all of its pages when its
iteration succeeds, none when it is skipped with a warning. -/
def inputPages {α : Type} : MergeInput α → List α
  | MergeInput.ok pages => pages
  | MergeInput.openFail => []
  | MergeInput.insertFail _ => []

theorem mergeLoop_out {α : Type} (docs : List (MergeInput α)) (s : MergeState α) :
    (docs.foldl mergeStep s).out = s.out ++ (docs.map inputPages).flatten := by
  induction docs generalizing s with
  | nil => simp
  | cons d docs ih =>
    cases d <;> simp [mergeStep, inputPages, ih, List.append_assoc]

/-- C6: merging readable inputs concatenates their page lists in source
order, so the output page count is the sum of the input page counts; in
particular inputs with page counts 3, 5, 2 give 10 output pages. -/
theorem C6_merge_concat :
    (∀ (α : Type) (docs : List (List α)),
      (merge_pdfs_high_quality (docs.map MergeInput.ok)).out = docs.flatten ∧
      (merge_pdfs_high_quality (docs.map MergeInput.ok)).out.length =
        (docs.map List.length).sum) ∧
    (merge_pdfs_high_quality
      ([List.range 3, List.range 5, List.range 2].map MergeInput.ok)).out.length = 10 := by
  constructor
  · intro α docs
    have h : (merge_pdfs_high_quality (docs.map MergeInput.ok)).out = docs.flatten := by
      rw [merge_pdfs_high_quality, mergeLoop_out]
      simp [Function.comp_def, inputPages]
    exact ⟨h, by rw [h]; simp⟩
  · decide

/-- C3: the error path of the merge loop body leaks the handle: when
`insert_pdf` raises after `fitz.open` succeeded, the iteration ends with
that input's handle still open, while a fully successful iteration ends
with no open handle. -/
theorem C3_handle_leak :
    (merge_pdfs_high_quality [MergeInput.insertFail [(0 : Nat)]]).openHandles = 1 ∧
    (merge_pdfs_high_quality [MergeInput.ok [(0 : Nat)]]).openHandles = 0 :=
  ⟨rfl, rfl⟩

/-- C8: source-level failures are non-fatal: an archive with no image
entries makes the converter return no output (the archive is skipped), and
the merge loop always runs to completion, producing exactly the pages of
the inputs whose iterations succeed, whatever failures the other inputs
hit. -/
theorem C8_source_failures_nonfatal :
    (∀ entries : List String, entries.filter isImageEntry = [] →
      cbz_to_pdf entries = none) ∧
    (∀ (α : Type) (docs : List (MergeInput α)),
      (merge_pdfs_high_quality docs).out = (docs.map inputPages).flatten) := by
  constructor
  · intro entries h
    rw [cbz_to_pdf]
    simp [h]
  · intro α docs
    rw [merge_pdfs_high_quality, mergeLoop_out]
    simp

/-- Witness for C8: `readme.txt` alone yields no converted archive, and a
merge whose first input fails to open still produces the pages of the
remaining input. -/
theorem C8_witness :
    (["readme.txt"].filter isImageEntry = [] ∧ cbz_to_pdf ["readme.txt"] = none) ∧
    (merge_pdfs_high_quality
      [MergeInput.openFail, MergeInput.ok [(0 : Nat), 1]]).out = [0, 1] :=
  ⟨⟨by decide, C8_source_failures_nonfatal.1 ["readme.txt"] (by decide)⟩,
   by simpa using
     C8_source_failures_nonfatal.2 Nat [MergeInput.openFail, MergeInput.ok [0, 1]]⟩

/-- Output page geometry produced by one iteration of the resize loop: the
new page's dimensions and the rectangle (`fitz.Rect`) the rendered image is
placed into.  Arithmetic is over exact rationals. -/
structure OutPage where
  width : ℚ
  height : ℚ
  x0 : ℚ
  y0 : ℚ
  x1 : ℚ
  y1 : ℚ

/-- Computes `scale = min(scale_x, scale_y)` with `scale_x = target_width
/ current_width` and `scale_y = target_height / current_height`. -/
def pageScale (cw ch tw th : ℚ) : ℚ :=
  min (tw / cw) (th / ch)

/-- Computes `new_width = current_width * scale`. -/
def newWidth (cw ch tw th : ℚ) : ℚ :=
  cw * pageScale cw ch tw th

/-- Computes `new_height = current_height * scale`. -/
def newHeight (cw ch tw th : ℚ) : ℚ :=
  ch * pageScale cw ch tw th

/-- Computes `x_offset = (target_width - new_width) / 2`. -/
def xOffset (cw ch tw th : ℚ) : ℚ :=
  (tw - newWidth cw ch tw th) / 2

/-- Computes `y_offset = (target_height - new_height) / 2`. -/
def yOffset (cw ch tw th : ℚ) : ℚ :=
  (th - newHeight cw ch tw th) / 2

/-- One iteration of the page loop of `resize_pdf`: a new output page of
exactly the target dimensions, with the rendered image placed in
`fitz.Rect(x_offset, y_offset, x_offset + new_width, y_offset + new_height)`. -/
def resizePage (cw ch tw th : ℚ) : OutPage :=
  { width := tw
    height := th
    x0 := xOffset cw ch tw th
    y0 := yOffset cw ch tw th
    x1 := xOffset cw ch tw th + newWidth cw ch tw th
    y1 := yOffset cw ch tw th + newHeight cw ch tw th }

/-- Models `resize_pdf`: the page loop visits the input pages (given by
their width and height) in order and emits one output page each. -/
def resize_pdf (pages : List (ℚ × ℚ)) (tw th : ℚ) : List OutPage :=
  pages.map (fun p => resizePage p.1 p.2 tw th)

/-- C4: for positive page and target dimensions the resize transform uses
scale `min(targetW/w, targetH/h)`, its scaled dimensions never exceed the
targets, and both centering offsets are non-negative. -/
theorem C4_fit_geometry (cw ch tw th : ℚ)
    (hcw : 0 < cw) (hch : 0 < ch) (_htw : 0 < tw) (_hth : 0 < th) :
    pageScale cw ch tw th = min (tw / cw) (th / ch) ∧
    newWidth cw ch tw th ≤ tw ∧ newHeight cw ch tw th ≤ th ∧
    0 ≤ xOffset cw ch tw th ∧ 0 ≤ yOffset cw ch tw th := by
  have h1 : newWidth cw ch tw th ≤ tw := by
    rw [newWidth, pageScale]
    calc cw * min (tw / cw) (th / ch) ≤ cw * (tw / cw) :=
          mul_le_mul_of_nonneg_left (min_le_left _ _) (le_of_lt hcw)
      _ = tw := by rw [mul_comm, div_mul_cancel₀ _ (ne_of_gt hcw)]
  have h2 : newHeight cw ch tw th ≤ th := by
    rw [newHeight, pageScale]
    calc ch * min (tw / cw) (th / ch) ≤ ch * (th / ch) :=
          mul_le_mul_of_nonneg_left (min_le_right _ _) (le_of_lt hch)
      _ = th := by rw [mul_comm, div_mul_cancel₀ _ (ne_of_gt hch)]
  refine ⟨rfl, h1, h2, ?_, ?_⟩
  · rw [xOffset]
    have : 0 ≤ tw - newWidth cw ch tw th := by linarith
    positivity
  · rw [yOffset]
    have : 0 ≤ th - newHeight cw ch tw th := by linarith
    positivity

/-- Witness for C4 at the spec's example: a 600x800 page resized to
300x300 gives scale 3/8, scaled dimensions 225x300 and offsets (37.5, 0). -/
theorem C4_witness :
    (pageScale 600 800 300 300 = 3 / 8 ∧
     newWidth 600 800 300 300 = 225 ∧ newHeight 600 800 300 300 = 300 ∧
     xOffset 600 800 300 300 = 75 / 2 ∧ yOffset 600 800 300 300 = 0) ∧
    (pageScale 600 800 300 300 = min (300 / 600) (300 / 800) ∧
     newWidth 600 800 300 300 ≤ 300 ∧ newHeight 600 800 300 300 ≤ 300 ∧
     0 ≤ xOffset 600 800 300 300 ∧ 0 ≤ yOffset 600 800 300 300) :=
  ⟨by norm_num [pageScale, newWidth, newHeight, xOffset, yOffset, min_def],
   C4_fit_geometry 600 800 300 300 (by norm_num) (by norm_num) (by norm_num) (by norm_num)⟩

/-- C5: resizing preserves the page count and gives every output page
exactly the target dimensions. -/
theorem C5_resize_dimensions (pages : List (ℚ × ℚ)) (tw th : ℚ) :
    (resize_pdf pages tw th).length = pages.length ∧
    ∀ q ∈ resize_pdf pages tw th, q.width = tw ∧ q.height = th := by
  constructor
  · simp [resize_pdf]
  · intro q hq
    simp only [resize_pdf, List.mem_map] at hq
    rcases hq with ⟨p, _, rfl⟩
    exact ⟨rfl, rfl⟩

/-- Removes every leading and trailing occurrence of the character `c`;
models Python's `str.strip('"')` and `str.strip("'")`. -/
def stripChar (c : Char) (s : List Char) : List Char :=
  (((s.dropWhile (fun x => x == c)).reverse).dropWhile (fun x => x == c)).reverse

/-- Removes leading and trailing whitespace; models Python's `str.strip()`. -/
def pyStrip (s : List Char) : List Char :=
  (((s.dropWhile Char.isWhitespace).reverse).dropWhile Char.isWhitespace).reverse

/-- Models `get_output_directory` (the function is identical in
`mergepdf.py` and `resizepdf.py`).  `dirExists` is the value of
`os.path.exists(output_dir)`; `mkdirOk` tells whether
`Path(output_dir).mkdir(parents=True, exist_ok=True)` returns or raises.
When `mkdir` raises, the code prints the error and the default directory,
and returns the default directory. -/
def get_output_directory (default_dir user_input : String)
    (dirExists mkdirOk : Bool) : String :=
  let od := pyStrip user_input.data
  if od = [] then default_dir
  else
    let od := stripChar '\'' (stripChar '"' od)
    if dirExists then String.mk od
    else if mkdirOk then String.mk od
    else default_dir

/-- C2: when the requested output directory does not exist and creating it
fails, the run is not fatal: `get_output_directory` returns the default
directory — a fallback output location different from the requested one —
and the operation proceeds with it. -/
theorem C2_counterexample :
    get_output_directory "/default" "/new" false false = "/default" ∧
    "/default" ≠ "/new" := by
  constructor
  · rfl
  · decide

/-- C2 (amended): whenever the user supplies a non-blank directory that does
not exist and creating it fails, both tools report the error and fall back
to the default output directory, and the run continues. -/
theorem C2_mkdir_fallback (default_dir user_input : String)
    (h : pyStrip user_input.data ≠ []) :
    get_output_directory default_dir user_input false false = default_dir := by
  rw [get_output_directory]
  simp [h]

/-- Witness for C2 (amended) at a concrete non-blank input. -/
theorem C2_witness :
    pyStrip "/new".data ≠ [] ∧
    get_output_directory "/default" "/new" false false = "/default" :=
  ⟨by decide, C2_mkdir_fallback "/default" "/new" (by decide)⟩
